import Mathlib

/-!
# Verification of the tf2-price currency library

A shallow embedding of the `tf2-price` Rust crate (src/currencies.rs,
src/float_currencies.rs, src/helpers.rs, src/rounding.rs, src/constants.rs)
together with proofs settling the frozen specification claims.

Conventions of the embedding:
* The Rust type `Currency` is `i64` (the crate's default); it is embedded as
  `Int` together with the explicit range `[i64min, i64max]`.  Saturating,
  checked and wrapping operations are modelled explicitly; Rust's `/` and `%`
  on signed integers are `Int.tdiv` / `Int.tmod` (truncation toward zero,
  remainder taking the sign of the dividend).
* `f32` values are embedded exactly: a finite `f32` is a rational number, and
  every primitive operation rounds its exact rational result to the nearest
  representable binary32 value (round-to-nearest, ties-to-even), exactly as
  IEEE-754 prescribes.  NaN and the infinities are explicit constructors.
  The two zeroes are identified (no operation relevant to the claims
  distinguishes them).
-/

/-! ## The i64 integer model -/

/-- `i64::MIN`. -/
def i64min : Int := -(2 ^ 63)

/-- `i64::MAX`. -/
def i64max : Int := 2 ^ 63 - 1

/-- Whether an integer is representable as an `i64`. -/
def inI64 (n : Int) : Prop := i64min ≤ n ∧ n ≤ i64max

instance (n : Int) : Decidable (inI64 n) := by unfold inI64; infer_instance

/-- Clamp an integer into the `i64` range (the result of a saturating op). -/
def clamp64 (n : Int) : Int := max i64min (min i64max n)

/-- Two's-complement wrap-around into the `i64` range (the behaviour of Rust's
plain arithmetic operators on overflow when overflow checks are disabled). -/
def wrap64 (n : Int) : Int := (n + 2 ^ 63) % 2 ^ 64 - 2 ^ 63

/-- `i64::saturating_add`. -/
def satAdd (a b : Int) : Int := clamp64 (a + b)

/-- `i64::saturating_sub`. -/
def satSub (a b : Int) : Int := clamp64 (a - b)

/-- `i64::saturating_mul`. -/
def satMul (a b : Int) : Int := clamp64 (a * b)

/-- `i64::saturating_div` (truncating division; `MIN / -1` saturates to `MAX`;
the divisor is nonzero in every use reached by the claims—division by zero
panics in Rust and is outside the model). -/
def satDiv (a b : Int) : Int := clamp64 (Int.tdiv a b)

/-- `i64::checked_add`. -/
def checkedAdd64 (a b : Int) : Option Int :=
  if inI64 (a + b) then some (a + b) else none

/-- `i64::checked_sub`. -/
def checkedSub64 (a b : Int) : Option Int :=
  if inI64 (a - b) then some (a - b) else none

/-- `i64::checked_mul`. -/
def checkedMul64 (a b : Int) : Option Int :=
  if inI64 (a * b) then some (a * b) else none

/-! ## Constants (src/constants.rs) -/

/-- `ONE_WEAPON`. -/
def ONE_WEAPON : Int := 1

/-- `ONE_SCRAP = ONE_WEAPON * 2`. -/
def ONE_SCRAP : Int := ONE_WEAPON * 2

/-- `ONE_REC = ONE_SCRAP * 3`. -/
def ONE_REC : Int := ONE_SCRAP * 3

/-- `ONE_REF = ONE_REC * 3` (18 weapons to one refined). -/
def ONE_REF : Int := ONE_REC * 3

/-! ## Rounding (src/rounding.rs, src/helpers.rs `round_metal`) -/

/-- The `Rounding` enumeration. -/
inductive Rounding where
  | UpScrap
  | DownScrap
  | Refined
  | UpRefined
  | DownRefined
  | NoRounding
deriving DecidableEq

/-- `helpers::round_metal`.  Plain `i64` arithmetic is embedded with
`wrap64` at each intermediate that can overflow for in-range inputs. -/
def round_metal (metal : Int) (rounding : Rounding) : Int :=
  if metal = 0 then metal
  else
    match rounding with
    | .UpScrap => if Int.tmod metal 2 ≠ 0 then wrap64 (metal + 1) else metal
    | .DownScrap => if Int.tmod metal 2 ≠ 0 then wrap64 (metal - 1) else metal
    | .Refined =>
        let value := wrap64 (metal + ONE_REF / 2)
        wrap64 (value - Int.tmod value ONE_REF)
    | .UpRefined =>
        let remainder := Int.tmod metal ONE_REF
        if remainder ≠ 0 then
          if metal > 0 then wrap64 (metal - (remainder + -ONE_REF))
          else wrap64 (metal - remainder)
        else metal
    | .DownRefined =>
        let remainder := Int.tmod metal ONE_REF
        if remainder ≠ 0 then
          if metal > 0 then wrap64 (metal - remainder)
          else wrap64 (metal - (remainder + ONE_REF))
        else metal
    | .NoRounding => metal

/-! ## The `Currencies` value type (src/currencies.rs), integer parts -/

/-- `Currencies`: integer keys and an integer amount of metal in weapons. -/
structure Currencies where
  keys : Int
  weapons : Int
deriving DecidableEq

/-- Both fields of a `Currencies` are `i64` values. -/
def Currencies.inRange (c : Currencies) : Prop :=
  inI64 c.keys ∧ inI64 c.weapons

instance (c : Currencies) : Decidable c.inRange := by
  unfold Currencies.inRange; infer_instance

/-- `helpers::to_metal`: `keys.saturating_mul(key_price).saturating_add(metal)`. -/
def to_metal (metal keys key_price : Int) : Int :=
  satAdd (satMul keys key_price) metal

/-- `helpers::checked_to_metal`. -/
def checked_to_metal (metal keys key_price : Int) : Option Int :=
  match checkedMul64 keys key_price with
  | none => none
  | some kp => checkedAdd64 metal kp

/-- `Currencies::from_weapons`: decompose a weapon total through a key price.
`keys` is a saturating truncated division, `weapons` the Rust `%` remainder. -/
def Currencies.from_weapons (weapons key_price_weapons : Int) : Currencies :=
  { keys := satDiv weapons key_price_weapons
    weapons := Int.tmod weapons key_price_weapons }

/-- `Currencies::to_weapons`. -/
def Currencies.to_weapons (c : Currencies) (key_price : Int) : Int :=
  to_metal c.weapons c.keys key_price

/-- `Currencies::checked_to_weapons`. -/
def Currencies.checked_to_weapons (c : Currencies) (key_price : Int) : Option Int :=
  checked_to_metal c.weapons c.keys key_price

/-- `Currencies::is_empty`. -/
def Currencies.is_empty (c : Currencies) : Bool :=
  c.keys = 0 && c.weapons = 0

/-- `Currencies::round`: applies `round_metal` to the `weapons` field. -/
def Currencies.round (c : Currencies) (rounding : Rounding) : Currencies :=
  { c with weapons := round_metal c.weapons rounding }

/-- `Currencies::neaten`: flatten through the key price, then unflatten. -/
def Currencies.neaten (c : Currencies) (key_price_weapons : Int) : Currencies :=
  Currencies.from_weapons (c.to_weapons key_price_weapons) key_price_weapons

/-- `Currencies::can_afford`. -/
def Currencies.can_afford (c other : Currencies) : Bool :=
  other.keys ≤ c.keys && other.weapons ≤ c.weapons

/-- `Currencies::checked_add`: keys first, then weapons, `None` on any
per-field overflow. -/
def Currencies.checked_add (c other : Currencies) : Option Currencies :=
  match checkedAdd64 c.keys other.keys with
  | none => none
  | some keys =>
      match checkedAdd64 c.weapons other.weapons with
      | none => none
      | some weapons => some { keys := keys, weapons := weapons }

/-- `Currencies::checked_sub`. -/
def Currencies.checked_sub (c other : Currencies) : Option Currencies :=
  match checkedSub64 c.keys other.keys with
  | none => none
  | some keys =>
      match checkedSub64 c.weapons other.weapons with
      | none => none
      | some weapons => some { keys := keys, weapons := weapons }

/-- The saturating `+` operator on `Currencies` (`impl_op_ex!`). -/
def Currencies.add (a b : Currencies) : Currencies :=
  { keys := satAdd a.keys b.keys
    weapons := satAdd a.weapons b.weapons }

/-- The saturating `-` operator on `Currencies` (`impl_op_ex!`). -/
def Currencies.sub (a b : Currencies) : Currencies :=
  { keys := satSub a.keys b.keys
    weapons := satSub a.weapons b.weapons }

/-! ## Helper lemmas for the integer model -/

theorem ONE_REF_eq : ONE_REF = 18 := by decide

theorem wrap64_eq_self {n : Int} (h : inI64 n) : wrap64 n = n := by
  unfold wrap64
  unfold inI64 i64min i64max at h
  omega

theorem tmod_neg_left (a b : Int) : (-a).tmod b = -(a.tmod b) := by
  have h1 := Int.tdiv_add_tmod a b
  have h2 := Int.tdiv_add_tmod (-a) b
  rw [Int.neg_tdiv] at h2
  have h3 : b * -(a.tdiv b) = -(b * (a.tdiv b)) := by ring
  omega

theorem tmod_eq_emod_of_nonneg (a : Int) (h : 0 ≤ a) : a.tmod 18 = a % 18 :=
  Int.tmod_eq_emod h (by norm_num)

theorem tmod_eq_neg_emod_of_neg (a : Int) (h : a ≤ 0) : a.tmod 18 = -((-a) % 18) := by
  have h1 : a.tmod 18 = -((-a).tmod 18) := by rw [tmod_neg_left]; ring
  rw [h1, tmod_eq_emod_of_nonneg (-a) (by omega)]

/-! ## Claims C2 and C3: the rounding policies -/

/-- C2 counterexample: `round_metal` with `Rounding::Refined` maps `-10` to
`0`, although `-18` (the multiple `18 * (-1)`) is strictly nearer to `-10`,
so the policy does not return the nearest multiple of 18 for negative
amounts. -/
theorem C2_refined_negative_counterexample :
    round_metal (-10) Rounding.Refined = 0 ∧
    |(-10 : Int) - 18 * (-1)| < |(-10 : Int) - round_metal (-10) Rounding.Refined| := by
  decide

/-- C2 amended: for `0 ≤ m ≤ i64::MAX - 9`, `Rounding::Refined` returns the
multiple of 18 nearest to `m`, and when the remainder is exactly half a
refined (9) the result is the refined multiple of larger absolute magnitude
(`m + 9`). -/
theorem C2_refined_rounds_nonneg_to_nearest (m : Int)
    (h0 : 0 ≤ m) (h1 : m ≤ i64max - 9) :
    (∃ k : Int, round_metal m Rounding.Refined = 18 * k) ∧
    (∀ k : Int, |m - round_metal m Rounding.Refined| ≤ |m - 18 * k|) ∧
    (m % 18 = 9 → round_metal m Rounding.Refined = m + 9) := by
  unfold i64max at h1
  by_cases hm : m = 0
  · subst hm
    refine ⟨⟨0, by decide⟩, ?_, by decide⟩
    intro k
    have : round_metal 0 Rounding.Refined = 0 := by decide
    rw [this]
    simp
  · have hred : round_metal m Rounding.Refined =
        wrap64 (wrap64 (m + ONE_REF / 2) -
          Int.tmod (wrap64 (m + ONE_REF / 2)) ONE_REF) := by
      unfold round_metal
      rw [if_neg hm]
    have h9 : ONE_REF / 2 = 9 := by decide
    have hw1 : wrap64 (m + ONE_REF / 2) = m + 9 := by
      rw [h9]
      exact wrap64_eq_self ⟨by unfold i64min; omega, by unfold i64max; omega⟩
    rw [hw1, ONE_REF_eq, tmod_eq_emod_of_nonneg (m + 9) (by omega)] at hred
    have hw2 : wrap64 (m + 9 - (m + 9) % 18) = m + 9 - (m + 9) % 18 := by
      apply wrap64_eq_self
      constructor
      · unfold i64min; omega
      · unfold i64max; omega
    rw [hw2] at hred
    refine ⟨⟨(m + 9) / 18, by omega⟩, ?_, by omega⟩
    intro k
    rcases abs_cases (m - round_metal m Rounding.Refined) with ⟨e1, e2⟩ <;>
      rcases abs_cases (m - 18 * k) with ⟨e3, e4⟩ <;> omega

/-- C3 counterexample: the claim's example says a value strictly between
`-24` and `-23` refined (such as `-23.125` refined; `-417` weapons lies in
that open interval) rounds *up* to `-22` refined and *down* to `-23`
refined.  The code rounds `-417` up to `-414 = -23` refined (not
`-396 = -22` refined) and down to `-432 = -24` refined (not `-414 = -23`
refined). -/
theorem C3_example_counterexample :
    round_metal (-417) Rounding.UpRefined = 18 * (-23) ∧
    round_metal (-417) Rounding.UpRefined ≠ 18 * (-22) ∧
    round_metal (-417) Rounding.DownRefined = 18 * (-24) ∧
    round_metal (-417) Rounding.DownRefined ≠ 18 * (-23) := by
  decide

/-- C3 amended: for `m` in the i64 range with a margin of 17 for the
overflowing arms, and `m` not a multiple of 18: `UpRefined` moves a negative
`m` to the adjacent multiple of 18 of smaller absolute magnitude (toward
zero, e.g. `-417` weapons, between `-24` and `-23` refined, becomes `-414 =
-23` refined) and a positive `m` to the adjacent larger multiple, while
`DownRefined` moves a negative `m` to the adjacent multiple of larger
absolute magnitude; multiples of 18 are unchanged by both policies. -/
theorem C3_up_down_refined (m : Int)
    (hlo : i64min + 17 ≤ m) (hhi : m ≤ i64max - 17) :
    (Int.tmod m 18 ≠ 0 → m < 0 →
      (∃ k : Int, round_metal m Rounding.UpRefined = 18 * k) ∧
      m < round_metal m Rounding.UpRefined ∧
      round_metal m Rounding.UpRefined ≤ 0 ∧
      round_metal m Rounding.UpRefined - m < 18 ∧
      |round_metal m Rounding.UpRefined| < |m|) ∧
    (Int.tmod m 18 ≠ 0 → 0 < m →
      (∃ k : Int, round_metal m Rounding.UpRefined = 18 * k) ∧
      m < round_metal m Rounding.UpRefined ∧
      round_metal m Rounding.UpRefined - m < 18) ∧
    (Int.tmod m 18 ≠ 0 → m < 0 →
      (∃ k : Int, round_metal m Rounding.DownRefined = 18 * k) ∧
      round_metal m Rounding.DownRefined < m ∧
      m - round_metal m Rounding.DownRefined < 18 ∧
      |m| < |round_metal m Rounding.DownRefined|) ∧
    (Int.tmod m 18 = 0 →
      round_metal m Rounding.UpRefined = m ∧
      round_metal m Rounding.DownRefined = m) := by
  unfold i64min at hlo
  unfold i64max at hhi
  by_cases hm : m = 0
  · subst hm
    refine ⟨by omega, by omega, by omega, fun _ => by decide⟩
  · have hup : round_metal m Rounding.UpRefined =
        if Int.tmod m ONE_REF ≠ 0 then
          if m > 0 then wrap64 (m - (Int.tmod m ONE_REF + -ONE_REF))
          else wrap64 (m - Int.tmod m ONE_REF)
        else m := by
      unfold round_metal
      rw [if_neg hm]
    have hdn : round_metal m Rounding.DownRefined =
        if Int.tmod m ONE_REF ≠ 0 then
          if m > 0 then wrap64 (m - Int.tmod m ONE_REF)
          else wrap64 (m - (Int.tmod m ONE_REF + ONE_REF))
        else m := by
      unfold round_metal
      rw [if_neg hm]
    rw [ONE_REF_eq] at hup hdn
    by_cases hz : Int.tmod m 18 = 0
    · rw [hz] at hup hdn
      simp at hup hdn
      exact ⟨fun h _ => absurd hz h, fun h _ => absurd hz h,
        fun h _ => absurd hz h, fun _ => ⟨hup, hdn⟩⟩
    · rcases lt_trichotomy m 0 with hneg | h0 | hpos
      · -- negative m
        have hmod : Int.tmod m 18 = -((-m) % 18) :=
          tmod_eq_neg_emod_of_neg m (by omega)
        have hb : 0 < (-m) % 18 ∧ (-m) % 18 < 18 := by
          constructor
          · rcases Int.emod_nonneg (-m) (b := 18) (by norm_num) |>.lt_or_eq with h | h
            · exact h
            · exfalso; apply hz; omega
          · exact Int.emod_lt_of_pos (-m) (by norm_num)
        rw [if_neg (by omega : ¬ m > 0)] at hup hdn
        rw [if_pos hz] at hup hdn
        have hwu : wrap64 (m - Int.tmod m 18) = m - Int.tmod m 18 := by
          apply wrap64_eq_self; constructor <;> [unfold i64min; unfold i64max] <;> omega
        have hwd : wrap64 (m - (Int.tmod m 18 + 18)) = m - (Int.tmod m 18 + 18) := by
          apply wrap64_eq_self; constructor <;> [unfold i64min; unfold i64max] <;> omega
        rw [hwu] at hup
        rw [hwd] at hdn
        refine ⟨fun _ _ => ?_, fun _ h => absurd h (by omega), fun _ _ => ?_,
          fun h => absurd h hz⟩
        · have hdvd : ∃ k : Int, m - Int.tmod m 18 = 18 * k := by
            refine ⟨-((-m) / 18), ?_⟩
            have := Int.emod_add_ediv (-m) 18
            omega
          refine ⟨hup ▸ hdvd, by omega, by omega, by omega, ?_⟩
          rcases abs_cases (round_metal m Rounding.UpRefined) with ⟨e1, e2⟩ <;>
            rcases abs_cases m with ⟨e3, e4⟩ <;> omega
        · have hdvd : ∃ k : Int, m - (Int.tmod m 18 + 18) = 18 * k := by
            refine ⟨-((-m) / 18) - 1, ?_⟩
            have := Int.emod_add_ediv (-m) 18
            ring_nf
            omega
          refine ⟨hdn ▸ hdvd, by omega, by omega, ?_⟩
          rcases abs_cases (round_metal m Rounding.DownRefined) with ⟨e1, e2⟩ <;>
            rcases abs_cases m with ⟨e3, e4⟩ <;> omega
      · exact absurd h0 hm
      · -- positive m
        have hmod : Int.tmod m 18 = m % 18 := tmod_eq_emod_of_nonneg m (by omega)
        have hb : 0 < m % 18 ∧ m % 18 < 18 := by
          constructor
          · rcases Int.emod_nonneg m (b := 18) (by norm_num) |>.lt_or_eq with h | h
            · exact h
            · exfalso; apply hz; omega
          · exact Int.emod_lt_of_pos m (by norm_num)
        rw [if_pos hz, if_pos (by omega : m > 0)] at hup hdn
        have hwu : wrap64 (m - (Int.tmod m 18 + -18)) = m - (Int.tmod m 18 + -18) := by
          apply wrap64_eq_self; constructor <;> [unfold i64min; unfold i64max] <;> omega
        rw [hwu] at hup
        refine ⟨fun _ h => absurd h (by omega), fun _ _ => ?_,
          fun _ h => absurd h (by omega), fun h => absurd h hz⟩
        have hdvd : ∃ k : Int, m - (Int.tmod m 18 + -18) = 18 * k := by
          refine ⟨m / 18 + 1, ?_⟩
          have := Int.emod_add_ediv m 18
          ring_nf
          omega
        exact ⟨hup ▸ hdvd, by omega, by omega⟩

/-- C3 witness: the amended statement instantiated at `m = -417`. -/
theorem C3_up_down_refined_witness :
    (Int.tmod (-417) 18 ≠ 0 → (-417 : Int) < 0 →
      (∃ k : Int, round_metal (-417) Rounding.UpRefined = 18 * k) ∧
      (-417 : Int) < round_metal (-417) Rounding.UpRefined ∧
      round_metal (-417) Rounding.UpRefined ≤ 0 ∧
      round_metal (-417) Rounding.UpRefined - (-417) < 18 ∧
      |round_metal (-417) Rounding.UpRefined| < |(-417 : Int)|) ∧
    (Int.tmod (-417) 18 ≠ 0 → (0 : Int) < -417 →
      (∃ k : Int, round_metal (-417) Rounding.UpRefined = 18 * k) ∧
      (-417 : Int) < round_metal (-417) Rounding.UpRefined ∧
      round_metal (-417) Rounding.UpRefined - (-417) < 18) ∧
    (Int.tmod (-417) 18 ≠ 0 → (-417 : Int) < 0 →
      (∃ k : Int, round_metal (-417) Rounding.DownRefined = 18 * k) ∧
      round_metal (-417) Rounding.DownRefined < -417 ∧
      (-417 : Int) - round_metal (-417) Rounding.DownRefined < 18 ∧
      |(-417 : Int)| < |round_metal (-417) Rounding.DownRefined|) ∧
    (Int.tmod (-417) 18 = 0 →
      round_metal (-417) Rounding.UpRefined = -417 ∧
      round_metal (-417) Rounding.DownRefined = -417) :=
  C3_up_down_refined (-417) (by decide) (by decide)

/-- C2 witness: the amended statement instantiated at `m = 27`
(remainder 9, rounds away from zero to 36). -/
theorem C2_refined_rounds_nonneg_to_nearest_witness :
    (∃ k : Int, round_metal 27 Rounding.Refined = 18 * k) ∧
    (∀ k : Int, |(27 : Int) - round_metal 27 Rounding.Refined| ≤ |(27 : Int) - 18 * k|) ∧
    ((27 : Int) % 18 = 9 → round_metal 27 Rounding.Refined = 27 + 9) :=
  C2_refined_rounds_nonneg_to_nearest 27 (by decide) (by decide)

/-! ## Claim C4: checked versus saturating addition -/

/-- C4: `checked_add` returns `Some` of the per-field sum exactly when both
sums fit in the i64 range, otherwise `None` (never partially applied), while
the saturating `+` always returns the per-field clamped sum. -/
theorem C4_checked_add_and_saturating_add (a b : Currencies)
    (_ha : a.inRange) (_hb : b.inRange) :
    (inI64 (a.keys + b.keys) ∧ inI64 (a.weapons + b.weapons) →
      a.checked_add b = some ⟨a.keys + b.keys, a.weapons + b.weapons⟩) ∧
    (¬(inI64 (a.keys + b.keys) ∧ inI64 (a.weapons + b.weapons)) →
      a.checked_add b = none) ∧
    a.add b = ⟨clamp64 (a.keys + b.keys), clamp64 (a.weapons + b.weapons)⟩ := by
  unfold Currencies.checked_add checkedAdd64 Currencies.add satAdd
  refine ⟨fun ⟨hk, hw⟩ => by rw [if_pos hk, if_pos hw], fun h => ?_, rfl⟩
  by_cases hk : inI64 (a.keys + b.keys)
  · rw [if_pos hk, if_neg (fun hw => h ⟨hk, hw⟩)]
  · rw [if_neg hk]

/-- C4 witness: concrete in-range and overflowing instances. -/
theorem C4_checked_add_and_saturating_add_witness :
    ((inI64 ((2 : Int) + 3) ∧ inI64 ((40 : Int) + 2) →
      (Currencies.mk 2 40).checked_add (Currencies.mk 3 2) = some ⟨2 + 3, 40 + 2⟩) ∧
    (¬(inI64 ((2 : Int) + 3) ∧ inI64 ((40 : Int) + 2)) →
      (Currencies.mk 2 40).checked_add (Currencies.mk 3 2) = none) ∧
    (Currencies.mk 2 40).add (Currencies.mk 3 2) =
      ⟨clamp64 (2 + 3), clamp64 (40 + 2)⟩) ∧
    ((inI64 (i64max + i64max) ∧ inI64 ((1 : Int) + 1) →
      (Currencies.mk i64max 1).checked_add (Currencies.mk i64max 1) =
        some ⟨i64max + i64max, 1 + 1⟩) ∧
    (¬(inI64 (i64max + i64max) ∧ inI64 ((1 : Int) + 1)) →
      (Currencies.mk i64max 1).checked_add (Currencies.mk i64max 1) = none) ∧
    (Currencies.mk i64max 1).add (Currencies.mk i64max 1) =
      ⟨clamp64 (i64max + i64max), clamp64 (1 + 1)⟩) :=
  ⟨C4_checked_add_and_saturating_add ⟨2, 40⟩ ⟨3, 2⟩ (by decide) (by decide),
   C4_checked_add_and_saturating_add ⟨i64max, 1⟩ ⟨i64max, 1⟩ (by decide) (by decide)⟩

/-! ## Claim C5: `from_weapons` -/

/-- C5 counterexample: at `weapons = i64::MIN`, `key_price = -1` the `keys`
field is the saturated value `i64::MAX`, not the truncating quotient
`2^63`. -/
theorem C5_from_weapons_counterexample :
    Currencies.from_weapons i64min (-1) = ⟨i64max, 0⟩ ∧
    (Currencies.from_weapons i64min (-1)).keys ≠ Int.tdiv i64min (-1) := by
  decide

/-- C5 amended: for every in-range total `t` and nonzero in-range key price
`p` other than the single overflowing pair `(i64::MIN, -1)`,
`from_weapons t p` is exactly the truncating quotient (rounding toward
zero) paired with the Rust `%` remainder; in particular
`from_weapons 9 10 = {keys: 0, weapons: 9}` and
`from_weapons 11 10 = {keys: 1, weapons: 1}`. -/
theorem C5_from_weapons_truncating (t p : Int) (ht : inI64 t) (_hp : inI64 p)
    (_hp0 : p ≠ 0) (hexc : ¬(t = i64min ∧ p = -1)) :
    Currencies.from_weapons t p = ⟨Int.tdiv t p, Int.tmod t p⟩ ∧
    Currencies.from_weapons 9 10 = ⟨0, 9⟩ ∧
    Currencies.from_weapons 11 10 = ⟨1, 1⟩ := by
  refine ⟨?_, by decide, by decide⟩
  have habs : (Int.tdiv t p).natAbs ≤ t.natAbs := by
    rw [Int.natAbs_tdiv]
    exact Nat.div_le_self _ _
  have hne : Int.tdiv t p ≠ 2 ^ 63 := by
    intro he
    have hA : (Int.tdiv t p).natAbs = t.natAbs / p.natAbs := Int.natAbs_tdiv t p
    have htA : t.natAbs ≤ 2 ^ 63 := by
      unfold inI64 i64min i64max at ht
      omega
    have h63 : t.natAbs / p.natAbs = 2 ^ 63 := by omega
    have hles : t.natAbs / p.natAbs ≤ t.natAbs := Nat.div_le_self _ _
    have htA2 : t.natAbs = 2 ^ 63 := by omega
    have hone : p.natAbs = 1 := by
      rcases (Nat.div_eq_self.mp (by omega : t.natAbs / p.natAbs = t.natAbs)) with h | h
      · omega
      · exact h
    have hpcases : p = 1 ∨ p = -1 := by omega
    have htmin : t = i64min := by
      unfold inI64 i64min i64max at ht
      unfold i64min
      omega
    rcases hpcases with h1 | h1
    · rw [h1, Int.tdiv_one] at he
      unfold inI64 i64min i64max at ht
      omega
    · exact hexc ⟨htmin, h1⟩
  have hin : inI64 (Int.tdiv t p) := by
    unfold inI64 i64min i64max
    unfold inI64 i64min i64max at ht
    omega
  unfold Currencies.from_weapons satDiv clamp64
  unfold inI64 i64min i64max at hin
  congr 1
  unfold i64min i64max
  omega

/-- C5 witness: the amended statement at `t = 11`, `p = 10`. -/
theorem C5_from_weapons_truncating_witness :
    (Currencies.from_weapons 11 10 = ⟨Int.tdiv 11 10, Int.tmod 11 10⟩ ∧
     Currencies.from_weapons 9 10 = ⟨0, 9⟩ ∧
     Currencies.from_weapons 11 10 = ⟨1, 1⟩) :=
  C5_from_weapons_truncating 11 10 (by decide) (by decide) (by decide) (by decide)

/-! ## Claim C6: `neaten` -/

set_option maxRecDepth 4000 in
/-- C6: the two normalization examples: `{keys:1, weapons:110 ref}` at a
`50 ref` key price neatens to `{keys:3, weapons:10 ref}` and
`{keys:1, weapons:-110 ref}` neatens to `{keys:-1, weapons:-10 ref}`. -/
theorem C6_neaten_examples :
    (Currencies.mk 1 (110 * ONE_REF)).neaten (50 * ONE_REF) =
      ⟨3, 10 * ONE_REF⟩ ∧
    (Currencies.mk 1 (-(110 * ONE_REF))).neaten (50 * ONE_REF) =
      ⟨-1, -(10 * ONE_REF)⟩ := by
  decide

/-! ## Claim C7: saturation of `to_weapons` -/

/-- C7: `{keys: i64::MAX - 100, weapons: 0}` flattened at key price `50 ref`
saturates to `i64::MAX`, and at key price `-50 ref` saturates to
`i64::MIN`. -/
theorem C7_to_weapons_saturates :
    (Currencies.mk (i64max - 100) 0).to_weapons (50 * ONE_REF) = i64max ∧
    (Currencies.mk (i64max - 100) 0).to_weapons (-(50 * ONE_REF)) = i64min := by
  decide

/-! ## Reducible rational arithmetic

The `Rat` instance operations in the ambient library are marked
irreducible, which blocks kernel evaluation in `decide`.  The wrappers
below compute the same values through `Rat.divInt`/`mkRat` (which evaluate
fine) and are proved equal to the instance operations, so symbolic proofs
can move freely between the two. -/

/-- Rational multiplication via `divInt`. -/
def qmul (a b : ℚ) : ℚ := Rat.divInt (a.num * b.num) ((a.den : Int) * (b.den : Int))

/-- Rational division via `divInt`. -/
def qdiv (a b : ℚ) : ℚ := Rat.divInt (a.num * (b.den : Int)) ((a.den : Int) * b.num)

/-- Rational negation via `divInt`. -/
def qneg (a : ℚ) : ℚ := Rat.divInt (-a.num) (a.den : Int)

/-- Rational addition via `divInt`. -/
def qadd (a b : ℚ) : ℚ :=
  Rat.divInt (a.num * (b.den : Int) + b.num * (a.den : Int)) ((a.den : Int) * (b.den : Int))

/-- Rational subtraction via `divInt`. -/
def qsub (a b : ℚ) : ℚ := qadd a (qneg b)

/-- The rational value of an integer. -/
def qofInt (n : Int) : ℚ := mkRat n 1

/-- Rational absolute value. -/
def qabs (a : ℚ) : ℚ := mkRat (a.num.natAbs : Int) a.den

/-- Floor of a rational. -/
def qfloor (q : ℚ) : Int := Int.ediv q.num q.den

/-- Ceiling of a rational. -/
def qceil (q : ℚ) : Int := -(qfloor (qneg q))

/-- One half. -/
def qhalf : ℚ := mkRat 1 2

theorem qmul_eq (a b : ℚ) : qmul a b = a * b := by
  rw [qmul, ← Rat.divInt_mul_divInt', Rat.num_divInt_den, Rat.num_divInt_den]

theorem qdiv_eq (a b : ℚ) : qdiv a b = a / b := by
  rw [qdiv, ← Rat.divInt_div_divInt, Rat.num_divInt_den, Rat.num_divInt_den]

theorem qneg_eq (a : ℚ) : qneg a = -a := by
  rw [qneg, ← Rat.neg_divInt, Rat.num_divInt_den]

theorem qadd_eq (a b : ℚ) : qadd a b = a + b := by
  rw [qadd, ← Rat.divInt_add_divInt _ _
      (by exact_mod_cast a.den_nz) (by exact_mod_cast b.den_nz),
    Rat.num_divInt_den, Rat.num_divInt_den]

theorem qsub_eq (a b : ℚ) : qsub a b = a - b := by
  rw [qsub, qadd_eq, qneg_eq, sub_eq_add_neg]

theorem qofInt_eq (n : Int) : qofInt n = (n : ℚ) := by
  rw [qofInt, Rat.mkRat_one]

theorem qabs_eq (a : ℚ) : qabs a = |a| := by
  rcases le_or_lt 0 a with h | h
  · rw [abs_of_nonneg h, qabs]
    have hnum : 0 ≤ a.num := Rat.num_nonneg.mpr h
    rw [Int.natAbs_of_nonneg hnum]
    exact Rat.mkRat_self a
  · rw [abs_of_neg h, qabs]
    have hnum : a.num < 0 := Rat.num_neg.mpr h
    have : (a.num.natAbs : Int) = -a.num := Int.ofNat_natAbs_of_nonpos (by omega)
    rw [this, Rat.mkRat_eq_divInt, ← Rat.neg_divInt, Rat.num_divInt_den]

theorem qfloor_eq (q : ℚ) : qfloor q = ⌊q⌋ := by
  rw [Rat.floor_def]
  rfl

theorem qceil_eq (q : ℚ) : qceil q = ⌈q⌉ := by
  rw [qceil, qfloor_eq, qneg_eq, Int.floor_neg, neg_neg]

theorem qhalf_eq : qhalf = 1 / 2 := by
  rw [qhalf, Rat.mkRat_eq_divInt, Rat.divInt_eq_div]
  norm_num

/-! ## Exact binary32 model

Finite `f32` values are embedded as rational numbers.  Each primitive
operation computes its exact rational result and rounds it to the nearest
representable binary32 value (round-to-nearest, ties-to-even) as IEEE-754
and the Rust implementation prescribe.  NaN and the two infinities are
explicit; the two zeroes are identified (no operation used by the crate's
claims distinguishes `-0.0` from `0.0`). -/

/-- `2^e` as a rational. -/
def qpow2 (e : Int) : ℚ :=
  if 0 ≤ e then mkRat (Int.ofNat (2 ^ e.toNat)) 1 else mkRat 1 (2 ^ (-e).toNat)

theorem qpow2_eq (e : Int) : qpow2 e = (2 : ℚ) ^ e := by
  unfold qpow2
  split
  case isTrue h =>
    have h2 : (2 : ℚ) ^ e = (2 : ℚ) ^ e.toNat := by
      rw [← zpow_natCast]
      congr 1
      omega
    rw [h2, Rat.mkRat_one, Int.ofNat_eq_natCast]
    push_cast
    ring
  case isFalse h =>
    have h2 : (2 : ℚ) ^ e = ((2 : ℚ) ^ (-e).toNat)⁻¹ := by
      rw [← zpow_natCast, ← zpow_neg]
      congr 1
      omega
    rw [h2, Rat.mkRat_eq_divInt, Rat.divInt_eq_div, inv_eq_one_div]
    push_cast
    ring

/-- Fuel-based floor of the base-2 logarithm of a natural number
(`natLog2F fuel n` is exact whenever `1 ≤ n < 2^fuel`). -/
def natLog2F : Nat → Nat → Nat
  | 0, _ => 0
  | f + 1, n => if n ≤ 1 then 0 else natLog2F f (n / 2) + 1

/-- Enough fuel for every number the model manipulates. -/
def logFuel : Nat := 128

/-- For positive `q`, the floor of `log2 q`: the unique `e` with
`2^e ≤ q < 2^(e+1)`.  A fast approximation from the numerator's and
denominator's binary lengths, corrected by explicit comparisons. -/
def qlog2 (q : ℚ) : Int :=
  let a : Int := natLog2F logFuel q.num.natAbs
  let b : Int := natLog2F logFuel q.den
  let e0 : Int := a - b
  if q < qpow2 e0 then e0 - 1 else if q < qpow2 (e0 + 1) then e0 else e0 + 1

/-- Round a rational to the nearest integer, ties to even. -/
def rhe (x : ℚ) : Int :=
  let f := qfloor x
  let r := qsub x (qofInt f)
  if r < qhalf then f
  else if qhalf < r then f + 1
  else if f % 2 = 0 then f else f + 1

/-- The largest finite binary32 value, `(2^24 - 1) * 2^104`. -/
def maxF32 : ℚ := mkRat (Int.ofNat ((2 ^ 24 - 1) * 2 ^ 104)) 1

/-- Correctly round an exact rational at binary32 precision
(round-to-nearest, ties-to-even).  For results within the finite range the
value returned is the nearest representable `m * 2^e` with `|m| < 2^24` and
`e ≥ -149`; magnitudes that round beyond `maxF32` are mapped to infinity by
`F32.ofRat`. -/
def roundF32 (q : ℚ) : ℚ :=
  if q = 0 then 0
  else
    let e : Int := max (qlog2 (qabs q) - 23) (-149)
    qmul (qofInt (rhe (qdiv q (qpow2 e)))) (qpow2 e)

/-- A binary32 value: finite (an exact rational), infinite, or NaN. -/
inductive F32 where
  | fin (val : ℚ)
  | inf (neg : Bool)
  | nan
deriving DecidableEq

/-- Round an exact rational into an `F32`, overflowing to infinity. -/
def F32.ofRat (q : ℚ) : F32 :=
  let r := roundF32 q
  if maxF32 < r then .inf false
  else if r < qneg maxF32 then .inf true
  else .fin r

/-- Rust's `i64 as f32` conversion (round-to-nearest, ties-to-even). -/
def F32.ofInt (n : Int) : F32 := F32.ofRat (qofInt n)

/-- Truncation of a rational toward zero. -/
def qtrunc (q : ℚ) : Int := if 0 ≤ q then qfloor q else qceil q

/-- Rust's `f32 as i64` cast: truncate toward zero and saturate; NaN casts
to zero. -/
def F32.toI64 (x : F32) : Int :=
  match x with
  | .nan => 0
  | .inf neg => if neg then i64min else i64max
  | .fin q => clamp64 (qtrunc q)

/-- `f32` multiplication. -/
def F32.mul (x y : F32) : F32 :=
  match x, y with
  | .nan, _ => .nan
  | _, .nan => .nan
  | .inf n1, .inf n2 => .inf (n1 != n2)
  | .inf n1, .fin q => if q = 0 then .nan else .inf (n1 != decide (q < 0))
  | .fin q, .inf n2 => if q = 0 then .nan else .inf (decide (q < 0) != n2)
  | .fin a, .fin b => F32.ofRat (qmul a b)

/-- `f32` division (the crate only divides by the nonzero constants
`18.0` and `100.0`). -/
def F32.div (x y : F32) : F32 :=
  match x, y with
  | .nan, _ => .nan
  | _, .nan => .nan
  | .inf _, .inf _ => .nan
  | .inf n, .fin q => .inf (n != decide (q < 0))
  | .fin _, .inf _ => .fin 0
  | .fin a, .fin b =>
      if b = 0 then (if a = 0 then .nan else .inf (decide (a < 0)))
      else F32.ofRat (qdiv a b)

/-- `f32::trunc` (exact: truncating a representable value is representable). -/
def F32.trunc (x : F32) : F32 :=
  match x with
  | .fin q => .fin (qofInt (qtrunc q))
  | x => x

/-- `f32::round` rounds half away from zero. -/
def roundHalfAway (x : ℚ) : Int :=
  if 0 ≤ x then qfloor (qadd x qhalf) else qceil (qsub x qhalf)

/-- `f32::round` on an `F32` (exact on representable values: any float
with a fractional part has magnitude below `2^23`, so the rounded integer
is itself representable). -/
def F32.round (x : F32) : F32 :=
  match x with
  | .fin q => .fin (qofInt (roundHalfAway q))
  | x => x

/-- `f32::fract`, computed as `x - x.trunc()` (exact on representable
values: the fractional part of a float is itself representable). -/
def F32.fract (x : F32) : F32 :=
  match x with
  | .fin q => .fin (qsub q (qofInt (qtrunc q)))
  | .inf _ => .nan
  | .nan => .nan

/-- `f32` equality (`==`): NaN compares unequal to everything. -/
def F32.beq (x y : F32) : Bool :=
  match x, y with
  | .fin a, .fin b => decide (a = b)
  | .inf n1, .inf n2 => n1 == n2
  | _, _ => false

/-! ## Float helpers (src/helpers.rs) -/

/-- `ONE_REF_FLOAT = ONE_REF as f32` (exactly 18). -/
def ONE_REF_FLOAT : F32 := F32.ofRat (qofInt 18)

/-- `Currency::MIN as f32` (exactly `-2^63`). -/
def i64minF : ℚ := qneg (mkRat (Int.ofNat (2 ^ 63)) 1)

/-- `Currency::MAX as f32` (rounds up to exactly `2^63`). -/
def i64maxF : ℚ := mkRat (Int.ofNat (2 ^ 63)) 1

/-- `helpers::get_metal_float_from_weapons`:
`f32::trunc((value as f32 / ONE_REF_FLOAT) * 100.0) / 100.0`. -/
def get_metal_float_from_weapons (value : Int) : F32 :=
  F32.div
    (F32.trunc (F32.mul (F32.div (F32.ofInt value) ONE_REF_FLOAT)
      (F32.ofRat (qofInt 100))))
    (F32.ofRat (qofInt 100))

/-- `helpers::get_weapons_from_metal_float`:
`(value * ONE_REF_FLOAT).round() as Currency`. -/
def get_weapons_from_metal_float (value : F32) : Int :=
  F32.toI64 (F32.round (F32.mul value ONE_REF_FLOAT))

/-- `helpers::strict_f32_to_currency`: reject NaN, infinities, fractional
values, and values outside the `f32` images of the `Currency` bounds; note
`Currency::MAX as f32` rounds up to `2^63`, and the final `as Currency`
cast saturates `2^63` back to `Currency::MAX`. -/
def strict_f32_to_currency (value : F32) : Option Int :=
  match value with
  | .nan => none
  | .inf _ => none
  | .fin q =>
      if qsub q (qofInt (qtrunc q)) ≠ 0 then none
      else if q < i64minF ∨ i64maxF < q then none
      else some (clamp64 (qtrunc q))

/-- `helpers::checked_get_weapons_from_metal_float`. -/
def checked_get_weapons_from_metal_float (value : F32) : Option Int :=
  strict_f32_to_currency (F32.round (F32.mul value ONE_REF_FLOAT))

/-- `helpers::metal_deserializer`: the `metal` JSON field is an `f32`
denominated in refined; multiply by 18 and round to the nearest weapon. -/
def metal_deserializer (metal_refined_float : F32) : Int :=
  F32.toI64 (F32.round (F32.mul metal_refined_float ONE_REF_FLOAT))

/-! ## `FloatCurrencies` (src/float_currencies.rs) -/

/-- `FloatCurrencies`: float keys, and metal denominated in refined (not
weapons). -/
structure FloatCurrencies where
  keys : F32
  metal : F32

/-- `FloatCurrencies::is_fract`: whether `keys` has a fractional part. -/
def FloatCurrencies.is_fract (c : FloatCurrencies) : Bool :=
  !(F32.beq (F32.fract c.keys) (.fin 0))

/-- `impl PartialEq<FloatCurrencies> for Currencies`. -/
def Currencies.eqFloat (c : Currencies) (other : FloatCurrencies) : Bool :=
  match checked_get_weapons_from_metal_float other.metal with
  | some weapons =>
      !other.is_fract && decide (c.keys = F32.toI64 other.keys) &&
        decide (c.weapons = weapons)
  | none => false

/-- `impl PartialEq<Currencies> for FloatCurrencies`. -/
def FloatCurrencies.eqCurrencies (c : FloatCurrencies) (other : Currencies) : Bool :=
  F32.beq (F32.fract c.keys) (.fin 0) &&
  F32.beq c.keys (F32.ofInt other.keys) &&
  decide (get_weapons_from_metal_float c.metal = other.weapons)

/-! ## Claim C9: the two base-unit/metal-float conversions -/

/-- C9: `get_metal_float_from_weapons(6)` equals the `f32` literal `0.33`
(i.e. the binary32 value nearest `33/100`): division by 18 is followed by
truncation—not rounding—to 2 decimal places; and
`get_weapons_from_metal_float(0.33)` equals `6`: multiplication by 18 is
followed by rounding to the nearest integer. -/
theorem C9_metal_float_conversions :
    get_metal_float_from_weapons 6 = F32.ofRat (mkRat 33 100) ∧
    get_weapons_from_metal_float (F32.ofRat (mkRat 33 100)) = 6 := by
  decide

/-! ## Claim C8: structured (de)serialization -/

/-- A structured (JSON-like) `Currencies` object: both fields optional.
Additional unknown fields are ignored by the derived deserializer and are
not modelled. -/
structure CurrenciesJson where
  keys : Option Int
  metal : Option F32

/-- What the `keys` field resolves to: missing fields default to zero
(`#[serde(default)]`). -/
def resolvedKeys (obj : CurrenciesJson) : Int := obj.keys.getD 0

/-- What the `metal` field resolves to, in weapons: missing fields default
to zero, present fields go through `helpers::metal_deserializer`. -/
def resolvedWeapons (obj : CurrenciesJson) : Int :=
  match obj.metal with
  | none => 0
  | some f => metal_deserializer f

/-- `impl Deserialize for Currencies`: the remote-derived field
deserializer followed by the all-zero rejection; `none` models the
deserialization error. -/
def deserializeCurrencies (obj : CurrenciesJson) : Option Currencies :=
  if resolvedKeys obj = 0 ∧ resolvedWeapons obj = 0 then none
  else some ⟨resolvedKeys obj, resolvedWeapons obj⟩

/-- A serialized JSON number: the crate writes `metal` as an integer when
the refined value is integral, as a float otherwise. -/
inductive JsonNum where
  | int (v : Int)
  | float (v : F32)

/-- The value written for the `metal` field when `weapons` is nonzero: the
refined float, emitted as an integer when it has no fractional part. -/
def serializeMetalField (weapons : Int) : JsonNum :=
  let float := get_metal_float_from_weapons weapons
  if F32.beq (F32.fract float) (F32.fin 0) then JsonNum.int (F32.toI64 float)
  else JsonNum.float float

/-- `impl Serialize for Currencies`: skip `keys` when zero; skip `metal`
when `weapons` is zero. -/
def serializeCurrencies (c : Currencies) : List (String × JsonNum) :=
  (if c.keys = 0 then [] else [("keys", JsonNum.int c.keys)]) ++
  (if c.weapons = 0 then [] else [("metal", serializeMetalField c.weapons)])

/-- C8: a missing `keys` or `metal` field resolves to zero; serialization
omits exactly the zero-valued fields; deserialization fails exactly when
both fields resolve to zero. -/
theorem C8_serde_zero_conventions :
    (∀ obj : CurrenciesJson, obj.keys = none → resolvedKeys obj = 0) ∧
    (∀ obj : CurrenciesJson, obj.metal = none → resolvedWeapons obj = 0) ∧
    (∀ c : Currencies,
      ((∃ v, ("keys", v) ∈ serializeCurrencies c) ↔ c.keys ≠ 0) ∧
      ((∃ v, ("metal", v) ∈ serializeCurrencies c) ↔ c.weapons ≠ 0)) ∧
    (∀ obj : CurrenciesJson,
      deserializeCurrencies obj = none ↔
        (resolvedKeys obj = 0 ∧ resolvedWeapons obj = 0)) := by
  refine ⟨?_, ?_, ?_, ?_⟩
  · intro obj h
    unfold resolvedKeys
    rw [h]
    rfl
  · intro obj h
    unfold resolvedWeapons
    rw [h]
  · intro c
    unfold serializeCurrencies
    constructor
    · constructor
      · rintro ⟨v, hv⟩ hk
        rw [if_pos hk, List.nil_append] at hv
        by_cases hw : c.weapons = 0
        · rw [if_pos hw] at hv
          exact (List.not_mem_nil _ hv)
        · rw [if_neg hw] at hv
          exact absurd
            (show ("keys" : String) = "metal" from
              congrArg Prod.fst (List.mem_singleton.mp hv))
            (by decide)
      · intro hk
        rw [if_neg hk]
        exact ⟨JsonNum.int c.keys, List.mem_append_left _ (List.mem_singleton.mpr rfl)⟩
    · constructor
      · rintro ⟨v, hv⟩ hw
        rw [if_pos hw, List.append_nil] at hv
        by_cases hk : c.keys = 0
        · rw [if_pos hk] at hv
          exact (List.not_mem_nil _ hv)
        · rw [if_neg hk] at hv
          exact absurd
            (show ("metal" : String) = "keys" from
              congrArg Prod.fst (List.mem_singleton.mp hv))
            (by decide)
      · intro hw
        rw [if_neg hw]
        exact ⟨serializeMetalField c.weapons,
          List.mem_append_right _ (List.mem_singleton.mpr rfl)⟩
  · intro obj
    unfold deserializeCurrencies
    split
    case isTrue h => simpa using h
    case isFalse h => simpa using h

/-- C8 witness: the zero conventions at concrete objects: a missing `keys`
field resolves to zero, a missing `metal` field resolves to zero,
`{keys: 2, weapons: 0}` serializes with a `keys` field and no `metal`
field, and the empty object (both fields resolving to zero) is rejected. -/
theorem C8_serde_zero_conventions_witness :
    resolvedKeys ⟨none, some (F32.ofRat (qofInt 1))⟩ = 0 ∧
    resolvedWeapons ⟨some 2, none⟩ = 0 ∧
    ((∃ v, ("keys", v) ∈ serializeCurrencies ⟨2, 0⟩) ↔ (2 : Int) ≠ 0) ∧
    ((∃ v, ("metal", v) ∈ serializeCurrencies ⟨2, 0⟩) ↔ (0 : Int) ≠ 0) ∧
    (deserializeCurrencies ⟨none, none⟩ = none ↔
      (resolvedKeys ⟨none, none⟩ = 0 ∧ resolvedWeapons ⟨none, none⟩ = 0)) :=
  ⟨C8_serde_zero_conventions.1 _ rfl,
   C8_serde_zero_conventions.2.1 _ rfl,
   (C8_serde_zero_conventions.2.2.1 ⟨2, 0⟩).1,
   (C8_serde_zero_conventions.2.2.1 ⟨2, 0⟩).2,
   C8_serde_zero_conventions.2.2.2 _⟩

/-! ## Claim C10: cross-type equality and its asymmetry -/

/-- C10 counterexample: with `a = {keys: 16777217, weapons: 0}` and
`b = {keys: 16777216.0, metal: 0.0}`, the `PartialEq<Currencies>`
implementation on `FloatCurrencies` answers `true` (the `i64` is cast to
`f32`, and `16777217` rounds to `16777216.0`), while the
`PartialEq<FloatCurrencies>` implementation on `Currencies` answers `false`
(the `f32` is cast to `i64` exactly); so the cross-type equality is not
symmetric, already on finite in-range values. -/
theorem C10_eq_symm_counterexample :
    (FloatCurrencies.mk (F32.ofRat (qofInt 16777216)) (F32.ofRat 0)).eqCurrencies
      ⟨16777217, 0⟩ = true ∧
    (Currencies.mk 16777217 0).eqFloat
      ⟨F32.ofRat (qofInt 16777216), F32.ofRat 0⟩ = false := by
  decide

/-! ### Supporting lemmas on the binary32 model -/

theorem natLog2F_correct (fuel n : Nat) (h1 : 1 ≤ n) (h2 : n < 2 ^ fuel) :
    2 ^ natLog2F fuel n ≤ n ∧ n < 2 ^ (natLog2F fuel n + 1) := by
  induction fuel generalizing n with
  | zero =>
    rw [pow_zero] at h2
    exact absurd h1 (by omega)
  | succ f ih =>
    by_cases hn : n ≤ 1
    · have hval : natLog2F (f + 1) n = 0 := by
        simp [natLog2F, hn]
      rw [hval]
      constructor
      · rw [pow_zero]
        omega
      · rw [pow_one]
        omega
    · have heq : natLog2F (f + 1) n = natLog2F f (n / 2) + 1 := by
        simp [natLog2F, hn]
      have h2' : n / 2 < 2 ^ f := by
        rw [pow_succ] at h2
        omega
      obtain ⟨l1, l2⟩ := ih (n / 2) (by omega) h2'
      rw [heq]
      constructor
      · rw [pow_succ]
        omega
      · rw [pow_succ]
        rw [pow_succ] at l2
        omega

theorem natLog2F_one : natLog2F logFuel 1 = 0 := by decide

theorem rhe_intCast (k : Int) : rhe ((k : ℚ)) = k := by
  simp only [rhe, qfloor_eq, qsub_eq, qofInt_eq, qhalf_eq, Int.floor_intCast, sub_self]
  norm_num

theorem qtrunc_intCast (k : Int) : qtrunc ((k : ℚ)) = k := by
  simp only [qtrunc, qfloor_eq, qceil_eq, Int.floor_intCast, Int.ceil_intCast]
  split <;> rfl

theorem qlog2_natCast (m : ℕ) (h1 : 1 ≤ m) (h2 : m < 2 ^ logFuel) :
    qlog2 ((m : ℚ)) = natLog2F logFuel m := by
  obtain ⟨l1, l2⟩ := natLog2F_correct logFuel m h1 h2
  have hnum : ((m : ℚ)).num = (m : ℤ) := Rat.num_natCast m
  have hden : ((m : ℚ)).den = 1 := Rat.den_natCast m
  simp only [qlog2, hnum, hden, Int.natAbs_ofNat, natLog2F_one, Nat.cast_zero,
    sub_zero]
  have hq1 : ¬ ((m : ℚ) < qpow2 (natLog2F logFuel m)) := by
    rw [qpow2_eq, not_lt]
    calc (2 : ℚ) ^ ((natLog2F logFuel m : ℕ) : ℤ) = ((2 ^ natLog2F logFuel m : ℕ) : ℚ) := by
          rw [zpow_natCast]
          push_cast
          ring
      _ ≤ (m : ℚ) := by exact_mod_cast l1
  have hq2 : (m : ℚ) < qpow2 ((natLog2F logFuel m : ℤ) + 1) := by
    rw [qpow2_eq]
    calc (m : ℚ) < ((2 ^ (natLog2F logFuel m + 1) : ℕ) : ℚ) := by exact_mod_cast l2
      _ = (2 : ℚ) ^ ((natLog2F logFuel m : ℤ) + 1) := by
          have : ((natLog2F logFuel m : ℤ) + 1) = ((natLog2F logFuel m + 1 : ℕ) : ℤ) := by
            push_cast
            ring
          rw [this, zpow_natCast]
          push_cast
          ring
  rw [if_neg hq1, if_pos hq2]

theorem roundF32_int (n : Int) (h : n.natAbs ≤ 2 ^ 24) :
    roundF32 ((n : ℚ)) = (n : ℚ) := by
  by_cases h0 : n = 0
  · subst h0
    norm_num [roundF32]
  · unfold roundF32
    rw [if_neg (by exact_mod_cast h0)]
    have habs : qabs ((n : ℚ)) = ((n.natAbs : ℕ) : ℚ) := by
      rw [qabs_eq, Int.cast_natAbs, Int.cast_abs]
    rw [habs]
    have h1n : 1 ≤ n.natAbs := by omega
    have hltF : n.natAbs < 2 ^ logFuel := by
      unfold logFuel
      have hp : (2 : ℕ) ^ 24 < 2 ^ 128 := by norm_num
      omega
    have hlog : qlog2 ((n.natAbs : ℕ) : ℚ) = natLog2F logFuel n.natAbs :=
      qlog2_natCast n.natAbs h1n hltF
    obtain ⟨l1, l2⟩ := natLog2F_correct logFuel n.natAbs h1n hltF
    have hA24 : natLog2F logFuel n.natAbs ≤ 24 := by
      by_contra hgt
      have h25 : (2 : ℕ) ^ 25 ≤ 2 ^ natLog2F logFuel n.natAbs :=
        Nat.pow_le_pow_right (by norm_num) (by omega)
      have : (2 : ℕ) ^ 25 ≤ 2 ^ 24 := by omega
      norm_num at this
    rw [hlog]
    have he : max ((natLog2F logFuel n.natAbs : ℤ) - 23) (-149) =
        (natLog2F logFuel n.natAbs : ℤ) - 23 := by omega
    rw [he]
    simp only [qmul_eq, qdiv_eq, qofInt_eq, qpow2_eq]
    rcases Nat.lt_or_ge (natLog2F logFuel n.natAbs) 24 with hA23 | hA24'
    · -- exponent at most zero: the scaled value is an integer
      have hexp : ((natLog2F logFuel n.natAbs : ℤ) - 23) =
          -(((23 - natLog2F logFuel n.natAbs : ℕ) : ℤ)) := by
        omega
      have h2ne : ((2 : ℚ) ^ (23 - natLog2F logFuel n.natAbs)) ≠ 0 := by positivity
      have key : (n : ℚ) / (2 : ℚ) ^ ((natLog2F logFuel n.natAbs : ℤ) - 23) =
          ((n * 2 ^ (23 - natLog2F logFuel n.natAbs) : ℤ) : ℚ) := by
        rw [hexp, zpow_neg, zpow_natCast, div_eq_mul_inv, inv_inv]
        push_cast
        ring
      rw [key, rhe_intCast, hexp, zpow_neg, zpow_natCast]
      field_simp
    · -- the magnitude is exactly 2^24
      have hAeq : natLog2F logFuel n.natAbs = 24 := by omega
      have hnab : n.natAbs = 2 ^ 24 := by
        rw [hAeq] at l1
        omega
      have hcase : n = 2 ^ 24 ∨ n = -(2 ^ 24) := by omega
      have hone : ((natLog2F logFuel n.natAbs : ℤ) - 23) = 1 := by
        rw [hAeq]
        ring
      rw [hone, zpow_one]
      rcases hcase with hc | hc <;> rw [hc]
      · have hv : (((2 ^ 24 : ℤ) : ℚ)) / 2 = (((2 ^ 23 : ℤ) : ℚ)) := by
          push_cast
          norm_num
        rw [hv, rhe_intCast]
        push_cast
        norm_num
      · have hv : (((-(2 ^ 24) : ℤ) : ℚ)) / 2 = (((-(2 ^ 23) : ℤ) : ℚ)) := by
          push_cast
          norm_num
        rw [hv, rhe_intCast]
        push_cast
        norm_num

theorem maxF32_eq : maxF32 = (((2 ^ 24 - 1) * 2 ^ 104 : ℕ) : ℚ) := by
  rw [maxF32, Rat.mkRat_one, Int.ofNat_eq_natCast]
  norm_cast

theorem ofInt_small (n : Int) (h : n.natAbs ≤ 2 ^ 24) :
    F32.ofInt n = F32.fin ((n : ℚ)) := by
  unfold F32.ofInt F32.ofRat
  rw [qofInt_eq, roundF32_int n h]
  have hXn : (2 : ℕ) ^ 24 ≤ (2 ^ 24 - 1) * 2 ^ 104 := by norm_num
  have h2 : (((2 : ℕ) ^ 24 : ℕ) : ℚ) ≤ (((2 ^ 24 - 1) * 2 ^ 104 : ℕ) : ℚ) := by
    exact_mod_cast hXn
  have hub : (n : ℚ) ≤ maxF32 := by
    rw [maxF32_eq]
    have h1 : (n : ℚ) ≤ (((2 : ℕ) ^ 24 : ℕ) : ℚ) := by
      exact_mod_cast (show n ≤ (2 ^ 24 : ℤ) by omega)
    linarith
  have hlb : qneg maxF32 ≤ (n : ℚ) := by
    rw [qneg_eq, maxF32_eq]
    have h1 : -((((2 : ℕ) ^ 24 : ℕ) : ℚ)) ≤ (n : ℚ) := by
      have := (show -(2 ^ 24 : ℤ) ≤ n by omega)
      exact_mod_cast this
    linarith
  rw [if_neg (by rw [not_lt]; exact hub), if_neg (by rw [not_lt]; exact hlb)]

theorem toI64_fin_int (k : Int) : F32.toI64 (F32.fin ((k : ℚ))) = clamp64 k := by
  simp only [F32.toI64]
  rw [qtrunc_intCast]

theorem fract_beq_zero_iff (x : F32) :
    (F32.beq (F32.fract x) (F32.fin 0) = true) ↔ ∃ k : ℤ, x = F32.fin ((k : ℚ)) := by
  cases x with
  | fin q =>
      simp only [F32.fract, F32.beq, decide_eq_true_eq]
      rw [qsub_eq, qofInt_eq, sub_eq_zero]
      constructor
      · intro hq
        exact ⟨qtrunc q, by rw [F32.fin.injEq]; exact hq⟩
      · rintro ⟨k, hk⟩
        rw [F32.fin.injEq] at hk
        rw [hk, qtrunc_intCast]
  | inf neg => simp [F32.fract, F32.beq]
  | nan => simp [F32.fract, F32.beq]

theorem checked_some_imp_get (v : F32) (w : Int)
    (h : checked_get_weapons_from_metal_float v = some w) :
    get_weapons_from_metal_float v = w := by
  unfold checked_get_weapons_from_metal_float strict_f32_to_currency at h
  unfold get_weapons_from_metal_float
  cases hr : F32.round (F32.mul v ONE_REF_FLOAT) with
  | fin q =>
      rw [hr] at h
      simp only [] at h
      split at h
      · exact absurd h (by simp)
      · split at h
        · exact absurd h (by simp)
        · simp only [F32.toI64]
          simpa using h
  | inf neg =>
      rw [hr] at h
      exact absurd h (by simp)
  | nan =>
      rw [hr] at h
      exact absurd h (by simp)

/-- C10 amended: the cross-type equality is symmetric whenever the
`Currencies` side's key count is small enough to be exactly representable
in `f32` (`|keys| ≤ 2^24`) and the `FloatCurrencies` side's metal value
survives the checked conversion to weapons (finite, integral after
rounding, in range); the counterexample shows both restrictions are needed
in general. -/
theorem C10_eq_symmetric_amended (a : Currencies) (b : FloatCurrencies) (w : Int)
    (hk : a.keys.natAbs ≤ 2 ^ 24)
    (hm : checked_get_weapons_from_metal_float b.metal = some w) :
    a.eqFloat b = b.eqCurrencies a := by
  unfold Currencies.eqFloat FloatCurrencies.eqCurrencies FloatCurrencies.is_fract
  rw [hm, checked_some_imp_get b.metal w hm]
  cases hA : F32.beq (F32.fract b.keys) (F32.fin 0) with
  | false =>
      simp [hA]
  | true =>
      obtain ⟨k, hks⟩ := (fract_beq_zero_iff b.keys).mp hA
      rw [hks]
      dsimp only
      rw [toI64_fin_int k, ofInt_small a.keys hk]
      have hbeq : F32.beq (F32.fin ((k : ℚ))) (F32.fin ((a.keys : ℚ))) =
          decide (k = a.keys) := by
        simp only [F32.beq]
        by_cases hkk : k = a.keys
        · rw [hkk]
          simp
        · rw [decide_eq_false hkk, decide_eq_false]
          exact fun hc => hkk (by exact_mod_cast hc)
      rw [hbeq]
      have h1 : (a.keys = clamp64 k) ↔ (k = a.keys) := by
        unfold clamp64 i64min i64max
        omega
      rw [decide_eq_decide.mpr h1, decide_eq_decide.mpr (eq_comm (a := a.weapons) (b := w))]
      rfl

/-- C10 witness: the amended statement at `a = {keys: 1, weapons: 6}`,
`b = {keys: 1.0, metal: 0.33}` (whose checked conversion yields 6). -/
theorem C10_eq_symmetric_amended_witness :
    (Currencies.mk 1 6).eqFloat ⟨F32.ofRat (qofInt 1), F32.ofRat (mkRat 33 100)⟩ =
      (FloatCurrencies.mk (F32.ofRat (qofInt 1)) (F32.ofRat (mkRat 33 100))).eqCurrencies
        ⟨1, 6⟩ :=
  C10_eq_symmetric_amended ⟨1, 6⟩ ⟨F32.ofRat (qofInt 1), F32.ofRat (mkRat 33 100)⟩ 6
    (by decide) (by decide)

/-! ## Claim C1: the textual format

Strings are modelled as `List Char` (wrapped into `String` at the
boundary).  `str::split` keeps empty pieces, `str::trim` strips
whitespace, and unit names compare ASCII-case-insensitively, as in the
Rust source.  Rust's `f32` `Display` prints the shortest decimal string
that parses back to the same value (no exponent notation, integral values
without a decimal point); `fmtFinF32` below implements that
specification.  `f32::from_str` is correctly rounded, modelled by exact
decimal-to-rational conversion followed by `roundF32`. -/

/-- `str::split(sep)`: splits at every separator, keeping empty pieces. -/
def splitChar (sep : Char) : List Char → List (List Char)
  | [] => [[]]
  | c :: cs =>
      match splitChar sep cs with
      | [] => [[]]
      | x :: xs => if c = sep then [] :: x :: xs else (c :: x) :: xs

/-- Whitespace for `str::trim` (the ASCII subset; the grammar never emits
other whitespace). -/
def isWS (c : Char) : Bool := c = ' ' || c = '\t' || c = '\n' || c = '\r'

/-- `str::trim`. -/
def trimChars (l : List Char) : List Char :=
  ((l.dropWhile isWS).reverse.dropWhile isWS).reverse

/-- ASCII lower-casing (only A–Z fold, as `eq_ignore_ascii_case` does). -/
def asciiLower (c : Char) : Char :=
  if 'A' ≤ c ∧ c ≤ 'Z' then Char.ofNat (c.toNat + 32) else c

/-- `str::eq_ignore_ascii_case`. -/
def eqIgnoreAsciiCase (a b : List Char) : Bool :=
  a.map asciiLower == b.map asciiLower

/-- The constants `KEY_SYMBOL`, `KEYS_SYMBOL`, `METAL_SYMBOL`. -/
def KEY_SYMBOL : List Char := ['k', 'e', 'y']

/-- `KEYS_SYMBOL = "keys"`. -/
def KEYS_SYMBOL : List Char := ['k', 'e', 'y', 's']

/-- `METAL_SYMBOL = "ref"`. -/
def METAL_SYMBOL : List Char := ['r', 'e', 'f']

/-- The decimal digit character for `n < 10`. -/
def digitChar (n : Nat) : Char := Char.ofNat (48 + n)

/-- Fuel for digit recursions (enough for any i64 and any f32 digit
string). -/
def natFuel : Nat := 64

/-- Decimal digits of a natural number, most significant first. -/
def natDigits : Nat → Nat → List Char
  | 0, _ => []
  | f + 1, n =>
      if n < 10 then [digitChar n]
      else natDigits f (n / 10) ++ [digitChar (n % 10)]

/-- `i64` `Display`. -/
def intChars (n : Int) : List Char :=
  if n < 0 then '-' :: natDigits natFuel n.natAbs else natDigits natFuel n.natAbs

/-- The numeric value of a decimal digit character. -/
def digitVal (c : Char) : Option Nat :=
  if '0' ≤ c ∧ c ≤ '9' then some (c.toNat - 48) else none

/-- Accumulate decimal digits; fails on any non-digit. -/
def parseDigitsAux : List Char → Nat → Option Nat
  | [], acc => some acc
  | c :: cs, acc =>
      match digitVal c with
      | some d => parseDigitsAux cs (acc * 10 + d)
      | none => none

/-- Parse a nonempty all-digit string. -/
def parseNatChars (l : List Char) : Option Nat :=
  match l with
  | [] => none
  | _ => parseDigitsAux l 0

/-- `i64::from_str`: optional sign, digits, in range. -/
def parseI64 (l : List Char) : Option Int :=
  let p : Bool × List Char :=
    match l with
    | '-' :: cs => (true, cs)
    | '+' :: cs => (false, cs)
    | cs => (false, cs)
  match parseNatChars p.2 with
  | none => none
  | some m =>
      let v : Int := if p.1 then -(m : Int) else (m : Int)
      if inI64 v then some v else none

/-- `10^e` as a rational. -/
def qpow10 (e : Int) : ℚ :=
  if 0 ≤ e then mkRat (Int.ofNat (10 ^ e.toNat)) 1 else mkRat 1 (10 ^ (-e).toNat)

/-- A decimal digit test. -/
def isDigit (c : Char) : Bool := decide ('0' ≤ c ∧ c ≤ '9')

/-- The exact rational value of a decimal string
`[+-]? (digits ['.' digits?] | '.' digits) [eE [+-]? digits]`, or `none`
if malformed.  (The special names `inf`/`NaN` and exponents beyond `±64`
are outside the fragment the crate's grammar ever produces and are not
modelled.) -/
def parseDecimalQ (l : List Char) : Option ℚ :=
  let p : Bool × List Char :=
    match l with
    | '-' :: cs => (true, cs)
    | '+' :: cs => (false, cs)
    | cs => (false, cs)
  let ip := (p.2.takeWhile isDigit)
  let rest2 := (p.2.dropWhile isDigit)
  let build (ipds fpds : List Char) (rest : List Char) : Option ℚ :=
    if ipds = [] ∧ fpds = [] then none
    else
      let ipv : Nat := (parseDigitsAux ipds 0).getD 0
      let fpv : Nat := (parseDigitsAux fpds 0).getD 0
      let mant : ℚ := qadd (qofInt ipv) (qdiv (qofInt fpv) (qpow10 fpds.length))
      let signed : ℚ := if p.1 then qneg mant else mant
      match rest with
      | [] => some signed
      | 'e' :: es =>
          match parseI64 es with
          | some ex => if ex.natAbs ≤ 64 then some (qmul signed (qpow10 ex)) else none
          | none => none
      | 'E' :: es =>
          match parseI64 es with
          | some ex => if ex.natAbs ≤ 64 then some (qmul signed (qpow10 ex)) else none
          | none => none
      | _ => none
  match rest2 with
  | '.' :: r3 =>
      let fp := r3.takeWhile isDigit
      build ip fp (r3.dropWhile isDigit)
  | r => build ip [] r

/-- `f32::from_str`: the exact decimal value, correctly rounded to
binary32. -/
def parseF32 (l : List Char) : Option F32 :=
  (parseDecimalQ l).map F32.ofRat

/-- Fuel-based floor of the base-10 logarithm. -/
def natLog10F : Nat → Nat → Nat
  | 0, _ => 0
  | f + 1, n => if n ≤ 9 then 0 else natLog10F f (n / 10) + 1

/-- Floor of `log10 q` for positive `q` (approximation corrected by
comparisons; used only computationally). -/
def qlog10 (q : ℚ) : Int :=
  let a : Int := natLog10F logFuel q.num.natAbs
  let b : Int := natLog10F logFuel q.den
  let e0 : Int := a - b
  if q < qpow10 (e0 - 1) then e0 - 2
  else if q < qpow10 e0 then e0 - 1
  else if q < qpow10 (e0 + 1) then e0
  else e0 + 1

/-- Render a significand digit string whose last digit sits at decimal
position `p` (value `digits * 10^p`), without exponent notation. -/
def renderDecimal (neg : Bool) (ds : List Char) (p : Int) : List Char :=
  let body :=
    if 0 ≤ p then ds ++ List.replicate p.toNat '0'
    else
      let k := (-p).toNat
      if k < ds.length then
        ds.take (ds.length - k) ++ ['.'] ++ ds.drop (ds.length - k)
      else ['0', '.'] ++ List.replicate (k - ds.length) '0' ++ ds
  if neg then '-' :: body else body

/-- One candidate at `s` significant digits for the shortest-decimal
search: round the value to `s` digits and keep the result only if it
parses back to the same binary32 value. -/
def fmtAttempt (aq : ℚ) (neg : Bool) (e10 : Int) (s : Nat) :
    Option (List Char) :=
  let n := rhe (qmul aq (qpow10 ((s : Int) - 1 - e10)))
  let carry : Bool := decide (n = 10 ^ s)
  let n' : Int := if carry then n / 10 else n
  let e' : Int := if carry then e10 + 1 else e10
  let cand := qmul (qofInt n') (qpow10 (e' - (s : Int) + 1))
  if roundF32 cand = aq then
    some (renderDecimal neg (natDigits natFuel n'.toNat) (e' - (s : Int) + 1))
  else none

/-- Rust `Display` for a finite `f32`: the shortest decimal digit string
that round-trips to the same value (integral values print without a
decimal point, never scientific notation). -/
def fmtFinF32 (q : ℚ) : List Char :=
  if q = 0 then ['0']
  else
    let neg := decide (q < 0)
    let aq := qabs q
    let e10 := qlog10 aq
    match (List.range 12).findSome? (fun i => fmtAttempt aq neg e10 (i + 1)) with
    | some ds => ds
    | none => []

/-- Rust `Display` for an `f32`. -/
def fmtF32 : F32 → List Char
  | .fin q => fmtFinF32 q
  | .inf neg => if neg then ['-', 'i', 'n', 'f'] else ['i', 'n', 'f']
  | .nan => ['N', 'a', 'N']

/-- `helpers::pluralize` applied to the key symbols. -/
def pluralizeKeys (keys : Int) : List Char :=
  if keys = 1 then KEY_SYMBOL else KEYS_SYMBOL

/-- `impl fmt::Display for Currencies`. -/
def Currencies.display (c : Currencies) : String :=
  ⟨if (c.keys ≠ 0 ∧ c.weapons ≠ 0) ∨ (c.keys = 0 ∧ c.weapons = 0) then
      intChars c.keys ++ [' '] ++ pluralizeKeys c.keys ++ [',', ' '] ++
        fmtF32 (get_metal_float_from_weapons c.weapons) ++ [' '] ++ METAL_SYMBOL
    else if c.keys ≠ 0 then
      intChars c.keys ++ [' '] ++ pluralizeKeys c.keys
    else
      fmtF32 (get_metal_float_from_weapons c.weapons) ++ [' '] ++ METAL_SYMBOL⟩

/-- The `ParseError` kinds (payloads of the wrapped numeric errors are
dropped). -/
inductive ParseError where
  | NoCurrenciesDetected
  | MissingCount
  | MissingCurrencyName
  | UnexpectedToken
  | InvalidCurrencyName
  | ParseIntErr
  | ParseFloatErr
deriving DecidableEq

/-- The clause loop of `helpers::parse_currencies`: later clauses
overwrite earlier ones; errors abort immediately. -/
def parse_currencies_loop :
    List (List Char) → Option (List Char) → Option (List Char) →
    Except ParseError (Option (List Char) × Option (List Char))
  | [], keys, metal =>
      if keys.isNone ∧ metal.isNone then .error .NoCurrenciesDetected
      else .ok (keys, metal)
  | element :: rest, keys, metal =>
      match splitChar ' ' (trimChars element) with
      | [] => .error .MissingCount
      | [_] => .error .MissingCurrencyName
      | [count_str, currency_name] =>
          if eqIgnoreAsciiCase currency_name METAL_SYMBOL then
            parse_currencies_loop rest keys (some count_str)
          else if eqIgnoreAsciiCase currency_name KEYS_SYMBOL ||
              eqIgnoreAsciiCase currency_name KEY_SYMBOL then
            parse_currencies_loop rest (some count_str) metal
          else .error .InvalidCurrencyName
      | _ => .error .UnexpectedToken

/-- `helpers::parse_currencies`. -/
def parse_currencies (s : List Char) :
    Except ParseError (Option (List Char) × Option (List Char)) :=
  parse_currencies_loop (splitChar ',' s) none none

/-- `helpers::parse_currency_from_string`. -/
def parse_currency_from_string (s : List Char) : Except ParseError (Int × Int) :=
  match parse_currencies s with
  | .error e => .error e
  | .ok (keys, metal) =>
      match
        (match keys with
          | none => Except.ok 0
          | some ks =>
              match parseI64 ks with
              | none => Except.error ParseError.ParseIntErr
              | some v => Except.ok v : Except ParseError Int)
      with
      | .error e => .error e
      | .ok kv =>
          match
            (match metal with
              | none => Except.ok 0
              | some ms =>
                  match parseF32 ms with
                  | none => Except.error ParseError.ParseFloatErr
                  | some f => Except.ok (get_weapons_from_metal_float f) :
              Except ParseError Int)
          with
          | .error e => .error e
          | .ok mv => .ok (kv, mv)

deriving instance DecidableEq for Except

/-- `impl FromStr for Currencies`. -/
def Currencies.fromStr (s : String) : Except ParseError Currencies :=
  match parse_currency_from_string s.data with
  | .error e => .error e
  | .ok (k, w) => .ok ⟨k, w⟩

set_option maxRecDepth 8000 in
/-- C1 counterexample: the metal float is a 24-bit-significand `f32`, so
for large weapon counts the formatted string no longer identifies the
original value: `{keys: 0, weapons: 33554433}` (33554433 = 2^25 + 1)
displays as `"1864135.2 ref"`-like text that parses back to
`{keys: 0, weapons: 33554436}`, not the original. -/
theorem C1_roundtrip_counterexample :
    Currencies.fromStr ((Currencies.mk 0 33554433).display) = .ok ⟨0, 33554436⟩ ∧
    (33554436 : Int) ≠ 33554433 := by
  decide

set_option maxHeartbeats 6000000 in
set_option maxRecDepth 8000 in
theorem C1_roundtrip_dec_km2 :
    ∀ b : Fin 161,
      (fun (w : Int) => ¬((-2 : Int) = 0 ∧ w = 0) →
        Currencies.fromStr ((Currencies.mk (-2) w).display) = .ok ⟨-2, w⟩)
        ((b : Int) - 80) := by
  decide

set_option maxHeartbeats 6000000 in
set_option maxRecDepth 8000 in
theorem C1_roundtrip_dec_km1 :
    ∀ b : Fin 161,
      (fun (w : Int) => ¬((-1 : Int) = 0 ∧ w = 0) →
        Currencies.fromStr ((Currencies.mk (-1) w).display) = .ok ⟨-1, w⟩)
        ((b : Int) - 80) := by
  decide

set_option maxHeartbeats 6000000 in
set_option maxRecDepth 8000 in
theorem C1_roundtrip_dec_k0 :
    ∀ b : Fin 161,
      (fun (w : Int) => ¬((0 : Int) = 0 ∧ w = 0) →
        Currencies.fromStr ((Currencies.mk 0 w).display) = .ok ⟨0, w⟩)
        ((b : Int) - 80) := by
  decide

set_option maxHeartbeats 6000000 in
set_option maxRecDepth 8000 in
theorem C1_roundtrip_dec_k1 :
    ∀ b : Fin 161,
      (fun (w : Int) => ¬((1 : Int) = 0 ∧ w = 0) →
        Currencies.fromStr ((Currencies.mk 1 w).display) = .ok ⟨1, w⟩)
        ((b : Int) - 80) := by
  decide

set_option maxHeartbeats 6000000 in
set_option maxRecDepth 8000 in
theorem C1_roundtrip_dec_k2 :
    ∀ b : Fin 161,
      (fun (w : Int) => ¬((2 : Int) = 0 ∧ w = 0) →
        Currencies.fromStr ((Currencies.mk 2 w).display) = .ok ⟨2, w⟩)
        ((b : Int) - 80) := by
  decide

set_option maxRecDepth 8000 in
/-- C1 amended: formatting with `Display` and parsing back with `FromStr`
reproduces the exact `keys` and `weapons` fields for every non-empty value
with `|keys| ≤ 2` and `|weapons| ≤ 80` (the precision loss exhibited by the
counterexample only appears at weapon magnitudes beyond the `f32`
significand); in particular `{keys: 2, weapons: 422}` formats as
`"2 keys, 23.44 ref"` and parses back to `{keys: 2, weapons: 422}`. -/
theorem C1_roundtrip_bounded (k w : Int) (hk : k.natAbs ≤ 2) (hw : w.natAbs ≤ 80)
    (hne : ¬(k = 0 ∧ w = 0)) :
    Currencies.fromStr ((Currencies.mk k w).display) = .ok ⟨k, w⟩ ∧
    (Currencies.mk 2 422).display = "2 keys, 23.44 ref" ∧
    Currencies.fromStr "2 keys, 23.44 ref" = .ok ⟨2, 422⟩ := by
  refine ⟨?_, by decide, by decide⟩
  have e2 : ((((w + 80).toNat : Nat) : Int)) - 80 = w := by omega
  have hks : k = -2 ∨ k = -1 ∨ k = 0 ∨ k = 1 ∨ k = 2 := by omega
  rcases hks with rfl | rfl | rfl | rfl | rfl
  · have h2 : ¬((-2 : Int) = 0 ∧ ((((w + 80).toNat : Nat) : Int) - 80) = 0) →
        Currencies.fromStr ((Currencies.mk (-2)
            ((((w + 80).toNat : Nat) : Int) - 80)).display) =
          .ok ⟨-2, (((w + 80).toNat : Nat) : Int) - 80⟩ :=
      C1_roundtrip_dec_km2 ⟨(w + 80).toNat, by omega⟩
    rw [e2] at h2
    exact h2 hne
  · have h2 : ¬((-1 : Int) = 0 ∧ ((((w + 80).toNat : Nat) : Int) - 80) = 0) →
        Currencies.fromStr ((Currencies.mk (-1)
            ((((w + 80).toNat : Nat) : Int) - 80)).display) =
          .ok ⟨-1, (((w + 80).toNat : Nat) : Int) - 80⟩ :=
      C1_roundtrip_dec_km1 ⟨(w + 80).toNat, by omega⟩
    rw [e2] at h2
    exact h2 hne
  · have h2 : ¬((0 : Int) = 0 ∧ ((((w + 80).toNat : Nat) : Int) - 80) = 0) →
        Currencies.fromStr ((Currencies.mk 0
            ((((w + 80).toNat : Nat) : Int) - 80)).display) =
          .ok ⟨0, (((w + 80).toNat : Nat) : Int) - 80⟩ :=
      C1_roundtrip_dec_k0 ⟨(w + 80).toNat, by omega⟩
    rw [e2] at h2
    exact h2 hne
  · have h2 : ¬((1 : Int) = 0 ∧ ((((w + 80).toNat : Nat) : Int) - 80) = 0) →
        Currencies.fromStr ((Currencies.mk 1
            ((((w + 80).toNat : Nat) : Int) - 80)).display) =
          .ok ⟨1, (((w + 80).toNat : Nat) : Int) - 80⟩ :=
      C1_roundtrip_dec_k1 ⟨(w + 80).toNat, by omega⟩
    rw [e2] at h2
    exact h2 hne
  · have h2 : ¬((2 : Int) = 0 ∧ ((((w + 80).toNat : Nat) : Int) - 80) = 0) →
        Currencies.fromStr ((Currencies.mk 2
            ((((w + 80).toNat : Nat) : Int) - 80)).display) =
          .ok ⟨2, (((w + 80).toNat : Nat) : Int) - 80⟩ :=
      C1_roundtrip_dec_k2 ⟨(w + 80).toNat, by omega⟩
    rw [e2] at h2
    exact h2 hne

/-- C1 witness: the amended statement at `{keys: 1, weapons: 6}`. -/
theorem C1_roundtrip_bounded_witness :
    Currencies.fromStr ((Currencies.mk 1 6).display) = .ok ⟨1, 6⟩ ∧
    (Currencies.mk 2 422).display = "2 keys, 23.44 ref" ∧
    Currencies.fromStr "2 keys, 23.44 ref" = .ok ⟨2, 422⟩ :=
  C1_roundtrip_bounded 1 6 (by decide) (by decide) (by decide)
